import Mathlib

/-!
Verification of the `ccm` cyclomatic-complexity package.

The development shallowly embeds the pipeline
  instruction decoding (`src/src/ccm/xdis.py`)
  → control-flow graph construction (`src/ccm/graphs.py`)
  → complexity metrics (`src/ccm/complexity.py`)
as executable Lean definitions and proves or refutes the specification
claims about it.

Machine integers do not occur: all Python quantities involved are
unbounded Python ints, modelled by `Nat`/`Int`.
-/

set_option autoImplicit false

/-! ## CPython opcode environment

Model of the (external) CPython 3.8 `opcode` module, restricted to the
tables the `ccm` code actually consults.  Opcodes that are not listed in
`opname` below get the placeholder name `"<i>"`, exactly as CPython fills
undefined slots of its `opname` list with `'<i>'`.
-/

def HAVE_ARGUMENT : Nat := 90

def EXTENDED_ARG : Nat := 144

/-- Relative-jump opcodes of CPython 3.8:
FOR_ITER, JUMP_FORWARD, SETUP_FINALLY, SETUP_WITH, SETUP_ASYNC_WITH,
CALL_FINALLY. -/
def hasjrel : List Nat := [93, 110, 122, 143, 154, 162]

/-- Absolute-jump opcodes of CPython 3.8:
JUMP_IF_FALSE_OR_POP, JUMP_IF_TRUE_OR_POP, JUMP_ABSOLUTE,
POP_JUMP_IF_FALSE, POP_JUMP_IF_TRUE. -/
def hasjabs : List Nat := [111, 112, 113, 114, 115]

/-- Comparison opcodes of CPython 3.8: COMPARE_OP. -/
def hascompare : List Nat := [107]

/-- The `opname` table of CPython 3.8, restricted to the opcodes that are
relevant to the `ccm` code (classification sets, the sys.exit heuristic,
and the opcodes used in the concrete bytecode examples below). -/
def opname (op : Nat) : String :=
  match op with
  | 1 => "POP_TOP"
  | 9 => "NOP"
  | 23 => "BINARY_ADD"
  | 83 => "RETURN_VALUE"
  | 93 => "FOR_ITER"
  | 100 => "LOAD_CONST"
  | 107 => "COMPARE_OP"
  | 110 => "JUMP_FORWARD"
  | 111 => "JUMP_IF_FALSE_OR_POP"
  | 112 => "JUMP_IF_TRUE_OR_POP"
  | 113 => "JUMP_ABSOLUTE"
  | 114 => "POP_JUMP_IF_FALSE"
  | 115 => "POP_JUMP_IF_TRUE"
  | 116 => "LOAD_GLOBAL"
  | 122 => "SETUP_FINALLY"
  | 124 => "LOAD_FAST"
  | 125 => "STORE_FAST"
  | 130 => "RAISE_VARARGS"
  | 131 => "CALL_FUNCTION"
  | 141 => "CALL_FUNCTION_KW"
  | 142 => "CALL_FUNCTION_EX"
  | 143 => "SETUP_WITH"
  | 144 => "EXTENDED_ARG"
  | 154 => "SETUP_ASYNC_WITH"
  | 160 => "LOAD_METHOD"
  | 161 => "CALL_METHOD"
  | 162 => "CALL_FINALLY"
  | _ => "<" ++ toString op ++ ">"

/-! The four operation-category tables of `src/src/ccm/xdis.py` (lines
58-61).  Each is a dict keyed by opcode there; only `.get(op) is not None`
membership tests are ever performed on them, so they are modelled as
membership predicates.  `CALL_OPS` collects the opcodes whose name starts
with `'CALL'`, `DECISION_OPS` the opcodes in `hascompare`, `BRANCH_OPS`
those in `hasjabs + hasjrel`, `EXIT_OPS` the opcodes named RETURN_VALUE
or RAISE_VARARGS. -/

def CALL_OPS_mem (op : Nat) : Bool := (opname op).startsWith "CALL"

def DECISION_OPS_mem (op : Nat) : Bool := decide (op ∈ hascompare)

def BRANCH_OPS_mem (op : Nat) : Bool := decide (op ∈ hasjabs ++ hasjrel)

def EXIT_OPS_mem (op : Nat) : Bool :=
  opname op == "RETURN_VALUE" || opname op == "RAISE_VARARGS"

/-! ## Instruction decoding (`src/src/ccm/xdis.py`)

A decoded-but-unclassified instruction is the `(offset, op, arg)` triple
produced by `_unpack_opargs`. -/

abbrev RawInstr : Type := Nat × Nat × Option Nat

/-- `_unpack_opargs` (xdis.py lines 546-555): walk the byte stream two
bytes at a time; an opcode at or above `HAVE_ARGUMENT` takes the following
byte, or-ed with any pending EXTENDED_ARG accumulator, as its argument.
A pending accumulator survives argument-less opcodes (the `else` branch of
the source does not reset `extended_arg`).  CPython code objects always
have even `co_code` length; on an odd trailing byte the Python generator
would raise IndexError, which is outside the modelled domain (the
singleton case below). -/
def unpack_opargs : List Nat → Nat → Nat → List RawInstr
  | [], _, _ => []
  | [_], _, _ => []
  | op :: argb :: rest, i, extended_arg =>
      if HAVE_ARGUMENT ≤ op then
        let arg := Nat.lor argb extended_arg
        (i, op, some arg) ::
          unpack_opargs rest (i + 2)
            (if op = EXTENDED_ARG then Nat.shiftLeft arg 8 else 0)
      else
        (i, op, none) :: unpack_opargs rest (i + 2) extended_arg

/-- `pairwise` (utils.py lines 47-61): `zip_longest` of the stream with
itself shifted by one, so every element is paired with its successor and
the last element is paired with `None`. -/
def pairwise {α : Type} : List α → List (α × Option α)
  | [] => []
  | [a] => [(a, none)]
  | a :: b :: rest => (a, some b) :: pairwise (b :: rest)

/-- `findlabels` (xdis.py lines 558-575): the set (kept as a
first-occurrence-ordered list) of all resolved jump targets. -/
def findlabels (code : List Nat) : List Nat :=
  (unpack_opargs code 0 0).foldl
    (fun labels t =>
      match t.2.2 with
      | none => labels
      | some arg =>
          if t.2.1 ∈ hasjrel then
            let label := t.1 + 2 + arg
            if label ∈ labels then labels else labels ++ [label]
          else if t.2.1 ∈ hasjabs then
            let label := arg
            if label ∈ labels then labels else labels ++ [label]
          else labels)
    []

/-- `findlinestarts` (xdis.py lines 578-606), recursive worker over the
zipped byte-increment/line-increment pairs of `co_lnotab`.  Line
increments are 8-bit signed; a byte increment past the end of the
bytecode aborts the scan. -/
def findlinestarts_go (codeLen : Nat) :
    List Nat → Nat → Int → Option Int → List (Nat × Int)
  | [], addr, lineno, lastlineno =>
      if lastlineno ≠ some lineno then [(addr, lineno)] else []
  | [_], addr, lineno, lastlineno =>
      if lastlineno ≠ some lineno then [(addr, lineno)] else []
  | byte_incr :: line_incr :: rest, addr, lineno, lastlineno =>
      let li : Int := if 128 ≤ line_incr then (line_incr : Int) - 256 else (line_incr : Int)
      if byte_incr ≠ 0 then
        let emit := lastlineno ≠ some lineno
        let out := if emit then [(addr, lineno)] else []
        let lastlineno1 := if emit then some lineno else lastlineno
        let addr1 := addr + byte_incr
        if codeLen ≤ addr1 then out
        else out ++ findlinestarts_go codeLen rest addr1 (lineno + li) lastlineno1
      else
        findlinestarts_go codeLen rest addr (lineno + li) lastlineno

def findlinestarts (co_code co_lnotab : List Nat) (co_firstlineno : Int) :
    List (Nat × Int) :=
  findlinestarts_go co_code.length co_lnotab 0 co_firstlineno none

/-- `XInstruction` (xdis.py lines 244-296).  The fields `argval` and
`argrepr` (resolved value and its human-readable form) are omitted: no
code under verification consumes them — graph construction uses the raw
`arg`, and the sys.exit heuristic re-resolves names itself via
`_get_name_info`. -/
structure XInstruction : Type where
  opname : String
  opcode : Nat
  arg : Option Nat
  offset : Nat
  starts_line : Option Int
  is_entry_point : Bool
  is_jump_target : Bool
  is_decision_point : Bool
  is_branch_point : Bool
  is_exit_point : Bool
  deriving Repr, DecidableEq

/-- `_get_name_info(i, names)[0]` (xdis.py lines 376-389): the name at
index `i` of the name table.  `none` models the IndexError raised on an
out-of-range index (the caller catches it).  A `None` argument would
raise an uncaught TypeError in Python; that call is unreachable because
the heuristic only resolves arguments of LOAD_GLOBAL/LOAD_METHOD
instructions, which always carry an argument, so it is also mapped to
`none` here. -/
def get_name_info (names : List String) : Option Nat → Option String
  | some i => names.get? i
  | none => none

/-- One conjunct of the sys.exit lookback pattern: the instruction `t`
has operation name `opn` and its argument resolves, via the name table,
to `target`.  The name lookup is only attempted when the operation name
matches, mirroring Python's short-circuit `and`; a failing lookup
(IndexError) is `none`. -/
def name_test (names : List String) (t : RawInstr) (opn target : String) :
    Option Bool :=
  if opname t.2.1 == opn then
    (get_name_info names t.2.2).map (fun s => s == target)
  else
    pure false

/-- The `is_exit_point` fallback test of xdis.py lines 454-464, in the
`Option` monad: `none` models an IndexError escaping the expression (the
surrounding `try` then leaves the flag `False`).  Python's operator
precedence makes the expression parse as

  (POP_TOP ∧ lookback0 = LOAD_GLOBAL sys ∧ lookback1 = LOAD_METHOD exit)
  ∨ (lookback1 = LOAD_GLOBAL sys ∧ lookback2 = LOAD_METHOD exit)

so the POP_TOP guard covers only the first disjunct, and no conjunct ever
inspects a call opcode. -/
def sys_exit_test (names : List String) (op : Nat) (last_four : List RawInstr) :
    Option Bool := do
  let d1 ←
    if opname op == "POP_TOP" then do
      let t0 ← last_four.get? 0
      let c0 ← name_test names t0 "LOAD_GLOBAL" "sys"
      if c0 then do
        let t1 ← last_four.get? 1
        name_test names t1 "LOAD_METHOD" "exit"
      else
        pure false
    else
      pure false
  if d1 then
    pure true
  else do
    let t1 ← last_four.get? 1
    let c1 ← name_test names t1 "LOAD_GLOBAL" "sys"
    if c1 then do
      let t2 ← last_four.get? 2
      name_test names t2 "LOAD_METHOD" "exit"
    else
      pure false

/-- The complete `is_exit_point` computation (xdis.py lines 453-464):
a RETURN_VALUE/RAISE_VARARGS opcode, otherwise the guarded lookback
test, with an IndexError leaving the flag false. -/
def exit_point_flag (names : List String) (op : Nat)
    (last_four : List RawInstr) : Bool :=
  if EXIT_OPS_mem op then true
  else (sys_exit_test names op last_four).getD false

/-- The `is_decision_point` computation (xdis.py lines 446-451): a
comparison opcode, or a call opcode immediately followed by a branch
opcode.  For the final instruction `succ` is `None` and the subscript on
it raises a TypeError that the source catches, leaving the flag false. -/
def decision_point_flag (op : Nat) (succ : Option RawInstr) : Bool :=
  if DECISION_OPS_mem op then true
  else
    match succ with
    | some s => BRANCH_OPS_mem s.2.1 && CALL_OPS_mem op
    | none => false

/-- `last_four = last_four[-4:]`: the at-most-four last elements. -/
def takeLast {α : Type} (n : Nat) (l : List α) : List α :=
  l.drop (l.length - n)

/-- The classification loop of `_get_instructions_bytes` (xdis.py lines
392-482) over the `pairwise`d raw instruction stream, carrying the
running `starts_line` and the `last_four` lookback window. -/
def gib_go (names : List String) (linestarts : List (Nat × Int))
    (line_offset : Int) (labels : List Nat) :
    List (RawInstr × Option RawInstr) → Option Int → List RawInstr →
    List XInstruction
  | [], _, _ => []
  | (t, succ) :: rest, starts_line, last_four =>
      let sl1 :=
        match (linestarts.filter (fun p => p.1 == t.1)).head? with
        | some p => some p.2
        | none => starts_line
      let sl2 := sl1.map (· + line_offset)
      { opname := opname t.2.1
        opcode := t.2.1
        arg := t.2.2
        offset := t.1
        starts_line := sl2
        is_entry_point := t.1 == 0
        is_jump_target := decide (t.1 ∈ labels)
        is_decision_point := decision_point_flag t.2.1 succ
        is_branch_point := BRANCH_OPS_mem t.2.1
        is_exit_point := exit_point_flag names t.2.1 last_four } ::
        gib_go names linestarts line_offset labels rest sl2
          (takeLast 4 (last_four ++ [t]))

/-- `_get_instructions_bytes` (xdis.py lines 392-482). -/
def get_instructions_bytes (code : List Nat) (names : List String)
    (linestarts : List (Nat × Int)) (line_offset : Int) : List XInstruction :=
  gib_go names linestarts line_offset (findlabels code)
    (pairwise (unpack_opargs code 0 0)) none []

/-- The slice of a CPython code object consumed by the pipeline.
`co_varnames`, `co_consts` and the cell names only feed the omitted
`argval`/`argrepr` fields and are therefore not represented. -/
structure CodeObj : Type where
  co_code : List Nat
  co_names : List String
  co_lnotab : List Nat
  co_firstlineno : Int
  deriving Repr, DecidableEq

/-- Modelled from the spec: the `ccm` package's own `xdis` module (the one
imported by `src/ccm/graphs.py`) is not under `src/`; per spec §3 a
decoded routine is "an ordered mapping from offset to Instruction,
insertion order = offset order", which also matches the `instr_map`
docstrings in `src/src/ccm/xdis.py` and the `(offset, XInstruction)`
destructuring in `src/ccm/source.py`.  The instruction decoding itself is
taken from `src/src/ccm/xdis.py` (`XBytecode.__init__`, with
`first_line=None`, hence `line_offset = 0`). -/
def XBytecode_instr_map (c : CodeObj) : List (Nat × XInstruction) :=
  (get_instructions_bytes c.co_code c.co_names
      (findlinestarts c.co_code c.co_lnotab c.co_firstlineno) 0).map
    (fun i => (i.offset, i))

/-- The `.values()` view of the instruction map. -/
def instr_values (c : CodeObj) : List XInstruction :=
  (XBytecode_instr_map c).map Prod.snd

/-! ## networkx directed-graph model

`XBytecodeGraph` subclasses `networkx.DiGraph`.  Only the operations the
`ccm` code performs are modelled: `add_edges_from` (which inserts both
endpoints as nodes and deduplicates parallel edges), `remove_nodes_from`
(which also drops incident edges), node/edge counting, iteration order
(insertion order), and the strongly-connected-component decomposition. -/

structure PyDiGraph : Type where
  nodes : List Nat
  edges : List (Nat × Nat)
  deriving Repr, DecidableEq

def add_node (g : PyDiGraph) (n : Nat) : PyDiGraph :=
  if n ∈ g.nodes then g else { g with nodes := g.nodes ++ [n] }

def add_edge (g : PyDiGraph) (e : Nat × Nat) : PyDiGraph :=
  let g1 := add_node (add_node g e.1) e.2
  if e ∈ g1.edges then g1 else { g1 with edges := g1.edges ++ [e] }

def add_edges_from (g : PyDiGraph) (es : List (Nat × Nat)) : PyDiGraph :=
  es.foldl add_edge g

def remove_nodes_from (g : PyDiGraph) (to_remove : List Nat) : PyDiGraph :=
  { nodes := g.nodes.filter (fun n => !to_remove.contains n)
    edges := g.edges.filter
      (fun e => !to_remove.contains e.1 && !to_remove.contains e.2) }

/-! Strongly connected components, modelling
`networkx.strongly_connected_components` /
`networkx.number_strongly_connected_components`: the partition of the
nodes into classes of the mutual-reachability relation.  Reachability is
computed as a fuel-bounded forward closure; `2*|edges| + 1` rounds exceed
the length of any simple path, so the closure is exact. -/

def succ_nodes (edges : List (Nat × Nat)) (u : Nat) : List Nat :=
  (edges.filter (fun e => e.1 == u)).map Prod.snd

def reach_iter (edges : List (Nat × Nat)) : Nat → List Nat → List Nat
  | 0, acc => acc
  | n + 1, acc =>
      reach_iter edges n ((acc ++ acc.flatMap (succ_nodes edges)).dedup)

def reachableB (edges : List (Nat × Nat)) (u v : Nat) : Bool :=
  (reach_iter edges (2 * edges.length + 1) [u]).contains v

def mutually_reachable (edges : List (Nat × Nat)) (u v : Nat) : Bool :=
  reachableB edges u v && reachableB edges v u

def scc_insert (edges : List (Nat × Nat)) (v : Nat) :
    List (List Nat) → List (List Nat)
  | [] => [[v]]
  | comp :: rest =>
      if (comp.head?.map (fun r => mutually_reachable edges r v)).getD false then
        (comp ++ [v]) :: rest
      else
        comp :: scc_insert edges v rest

def strongly_connected_components (g : PyDiGraph) : List (List Nat) :=
  g.nodes.foldl (fun comps v => scc_insert g.edges v comps) []

def number_strongly_connected_components (g : PyDiGraph) : Nat :=
  (strongly_connected_components g).length

/-! ## `XBytecodeGraph` (`src/ccm/graphs.py`) -/

/-- The state of an `XBytecodeGraph` object relevant to the claims: the
DiGraph node/edge data, the `code` attribute, the instruction map held by
the `xbytecode` attribute, and the four aggregate counters cached at
construction.  The `source_code_graph` attribute (visualization
collaborator, out of scope per spec §1/§4.4) is not represented. -/
structure XBytecodeGraph : Type where
  nodes : List Nat
  edges : List (Nat × Nat)
  code : CodeObj
  instr_map : List (Nat × XInstruction)
  number_entry_points : Nat
  number_decision_points : Nat
  number_branch_points : Nat
  number_exit_points : Nat
  deriving Repr, DecidableEq

/-- The edges yielded for one ordered instruction pair `(a, b)` with
`a.offset < b.offset` by the loop body of `XBytecodeGraph.get_edges`
(graphs.py lines 60-68).  The fall-through test `b.offset - 2 ==
a.offset` is Python int arithmetic; over natural offsets it is equivalent
to `b.offset = a.offset + 2` (for `b.offset < 2` both sides are false).
The second test compares the raw `arg` of `a` with `b`'s offset (`None ==
int` is `False` in Python). -/
def pair_edges (a b : XInstruction) : List (Nat × Nat) :=
  (if b.offset == a.offset + 2 && !a.is_exit_point
    then [(a.offset, b.offset)] else []) ++
  (if b.is_jump_target && a.arg == some b.offset
    then [(a.offset, b.offset)] else []) ++
  (if a.is_exit_point then [(a.offset, 0)] else []) ++
  (if b.is_exit_point then [(b.offset, 0)] else [])

/-- `XBytecodeGraph.get_edges` (graphs.py lines 41-68): all yields of the
generator, in order, over `product(values, values)` filtered to
`b.offset > a.offset`. -/
def get_edges (instr_map : List (Nat × XInstruction)) : List (Nat × Nat) :=
  let vals := instr_map.map Prod.snd
  vals.flatMap (fun a =>
    (vals.filter (fun b => a.offset < b.offset)).flatMap (pair_edges a))

def count_flag (instrs : List XInstruction) (flag : XInstruction → Bool) : Nat :=
  instrs.countP flag

/-- `XBytecodeGraph.__init__` with a `code` argument (graphs.py lines
135-186): decode, add the generated edges to an empty DiGraph, and cache
the four aggregate counts with one pass over the instruction map values.
Decoding is deterministic (spec §5), so rebuilding from the stored `code`
reproduces the same graph. -/
def XBytecodeGraph_init (c : CodeObj) : XBytecodeGraph :=
  let im := XBytecode_instr_map c
  let g := add_edges_from ⟨[], []⟩ (get_edges im)
  { nodes := g.nodes
    edges := g.edges
    code := c
    instr_map := im
    number_entry_points := count_flag (im.map Prod.snd) (fun i => i.is_entry_point)
    number_decision_points := count_flag (im.map Prod.snd) (fun i => i.is_decision_point)
    number_branch_points := count_flag (im.map Prod.snd) (fun i => i.is_branch_point)
    number_exit_points := count_flag (im.map Prod.snd) (fun i => i.is_exit_point) }

/-- Python truthiness of an optional sequence argument: `None` and the
empty sequence are falsy. -/
def pyTruthy {β : Type} : Option (List β) → Bool
  | none => false
  | some l => !l.isEmpty

/-- The two error kinds raised by the code under verification:
`CCMException` (graphs.py) and the builtin `TypeError` (complexity.py). -/
inductive PyErr : Type where
  | ccmException (msg : String)
  | typeError (msg : String)
  deriving Repr, DecidableEq

/-- `XBytecodeGraph.get_subgraph` (graphs.py lines 70-103).  The method
is generic in what the `edges` argument contains (Python is untyped and
the call in `henderson_sellers_tegarden_generalised_complexity` passes a
set of nodes there); `elem_nodes` models iterating one element of it in
the comprehension `[n for e in edges for n in e]`.  A fresh graph `H` is
rebuilt from `self.code`; nodes outside the selection are removed from
`H`, the instruction map is filtered by comparing its keys against the
removed node set, and the four counters are recomputed from the filtered
map. -/
def get_subgraph {α : Type} (elem_nodes : α → List Nat)
    (self : XBytecodeGraph) (nodes : Option (List Nat))
    (edges : Option (List α)) : Except PyErr XBytecodeGraph :=
  if !(pyTruthy edges || pyTruthy nodes) then
    .error (.ccmException "Either a subset of nodes or edges must be provided")
  else
    let H := XBytecodeGraph_init self.code
    let ns : List Nat :=
      if pyTruthy nodes then nodes.getD []
      else (edges.getD []).flatMap elem_nodes
    let to_remove := H.nodes.filter (fun n => !ns.contains n)
    let g := remove_nodes_from ⟨H.nodes, H.edges⟩ to_remove
    let im := H.instr_map.filter (fun kv => !to_remove.contains kv.1)
    .ok
      { nodes := g.nodes
        edges := g.edges
        code := H.code
        instr_map := im
        number_entry_points := count_flag (im.map Prod.snd) (fun i => i.is_entry_point)
        number_decision_points := count_flag (im.map Prod.snd) (fun i => i.is_decision_point)
        number_branch_points := count_flag (im.map Prod.snd) (fun i => i.is_branch_point)
        number_exit_points := count_flag (im.map Prod.snd) (fun i => i.is_exit_point) }

/-- The observable effect of the method call `self.get_subgraph(nodes,
edges)` on its receiver: the pair (returned value, state of `self` after
the call).  Every assignment in the method body targets the freshly
constructed graph `H` or local variables — `self` is never written — so
the post-state of the receiver is the receiver itself. -/
def get_subgraph_call {α : Type} (elem_nodes : α → List Nat)
    (self : XBytecodeGraph) (nodes : Option (List Nat))
    (edges : Option (List α)) :
    Except PyErr XBytecodeGraph × XBytecodeGraph :=
  (get_subgraph elem_nodes self nodes edges, self)

/-- Iterating one pair of an edge list (`for n in e`) yields its two
endpoints; this is the `elem_nodes` instance for genuine edge subsets. -/
def edge_elem_nodes (e : Nat × Nat) : List Nat := [e.1, e.2]

/-! ## Complexity metrics (`src/ccm/complexity.py`) -/

/-- `mccabe_complexity` (complexity.py lines 38-61): requires a single
strongly connected component, else raises
`TypeError('The bytecode graph of the input is not connected')`. -/
def mccabe_complexity (c : CodeObj) : Except PyErr Int :=
  let G := XBytecodeGraph_init c
  let p := number_strongly_connected_components ⟨G.nodes, G.edges⟩
  if 1 < p then
    .error (.typeError "The bytecode graph of the input is not connected")
  else
    .ok ((G.edges.length : Int) - (G.nodes.length : Int) + 2)

/-- `mccabe_generalised_complexity` (complexity.py lines 64-89). -/
def mccabe_generalised_complexity (c : CodeObj) : Int :=
  let G := XBytecodeGraph_init c
  let p := number_strongly_connected_components ⟨G.nodes, G.edges⟩
  (G.edges.length : Int) - (G.nodes.length : Int) + 2 * (p : Int)

/-- `henderson_sellers_complexity` (complexity.py lines 92-117). -/
def henderson_sellers_complexity (c : CodeObj) : Int :=
  let G := XBytecodeGraph_init c
  let p := number_strongly_connected_components ⟨G.nodes, G.edges⟩
  (G.edges.length : Int) - (G.nodes.length : Int) + (p : Int) + 1

/-- `henderson_sellers_tegarden_complexity` (complexity.py lines
120-145). -/
def henderson_sellers_tegarden_complexity (c : CodeObj) : Int :=
  let G := XBytecodeGraph_init c
  let p := number_strongly_connected_components ⟨G.nodes, G.edges⟩
  (G.edges.length : Int) - (G.nodes.length : Int) + (p : Int)

/-- `henderson_sellers_tegarden_generalised_complexity` (complexity.py
lines 148-176).  The source computes each component's contribution as
`G.get_subgraph(G, comp).number_exit_points`: the graph object `G` itself
is passed positionally as the `nodes` parameter (iterating a networkx
graph yields its node list, and a nonempty graph is truthy), and the
component lands in the otherwise-unused `edges` parameter.  The `.error`
arm is unreachable: components exist only when the graph has nodes, in
which case both arguments are truthy and `get_subgraph` succeeds. -/
def henderson_sellers_tegarden_generalised_complexity (c : CodeObj) : Int :=
  let G := XBytecodeGraph_init c
  let comps := strongly_connected_components ⟨G.nodes, G.edges⟩
  let X : Int :=
    (comps.map (fun comp =>
      match get_subgraph (fun _ => []) G (some G.nodes) (some comp) with
      | .ok H => (H.number_exit_points : Int)
      | .error _ => 0)).sum
  (G.edges.length : Int) - (G.nodes.length : Int) + X + 2

/-- `harrison_complexity` (complexity.py lines 179-202). -/
def harrison_complexity (c : CodeObj) : Int :=
  let G := XBytecodeGraph_init c
  (G.number_decision_points : Int) - (G.number_exit_points : Int) + 2

/-! ## Specification-side definitions

The following definitions transcribe the wording of the claims (not the
source); each claim theorem compares them against the embedded code. -/

/-- Claim C1's "resolved branch target" of an instruction: a relative
jump resolves to `offset + 2 + arg` (xdis.py line 426), an absolute jump
to its raw argument. -/
def spec_resolved_branch_target (i : XInstruction) : Option Nat :=
  if i.opcode ∈ hasjrel then i.arg.map (fun a => i.offset + 2 + a)
  else i.arg

/-- The edge set described by claim C1: for consecutive instructions `A,
B` in offset order a fall-through edge unless `A` is an exit point; for
every branch point an edge to its resolved target (backward targets
included); for every exit point an edge to the sink.  The sink is
rendered as node `0`, the representation the code uses (its adequacy is
claim C9's subject, not C1's). -/
def spec_edges_C1 (vals : List XInstruction) : List (Nat × Nat) :=
  ((vals.zip vals.tail).filter (fun p => !p.1.is_exit_point)).map
      (fun p => (p.1.offset, p.2.offset)) ++
    (vals.filter (fun a => a.is_branch_point)).filterMap
      (fun a => (spec_resolved_branch_target a).map (fun t => (a.offset, t))) ++
    (vals.filter (fun a => a.is_exit_point)).map (fun a => (a.offset, 0))

/-- The raw instruction at position `k` is operation `opn` with an
argument resolving through the name table to `target`. -/
def raw_name_is (names : List String) (ts : List RawInstr) (k : Nat)
    (opn target : String) : Bool :=
  match ts.get? k with
  | some t => opname t.2.1 == opn && get_name_info names t.2.2 == some target
  | none => false

def raw_op_is_call (ts : List RawInstr) (k : Nat) : Bool :=
  match ts.get? k with
  | some t => CALL_OPS_mem t.2.1
  | none => false

def raw_op_is_const (ts : List RawInstr) (k : Nat) : Bool :=
  match ts.get? k with
  | some t => opname t.2.1 == "LOAD_CONST"
  | none => false

/-- The exit-point condition described by claim C6 for the instruction at
position `idx`: its operation is a return or a raise, or it matches a
3-4-instruction lookback pattern "load the module named for the runtime
system, load its exit method, invoke it, with an optional preceding
constant argument" — i.e. consecutive instructions LOAD_GLOBAL 'sys',
LOAD_METHOD 'exit', an optional LOAD_CONST, then a call operation, with
the flagged instruction being the invocation itself or the instruction
immediately after it. -/
def spec_is_exit_point (ts : List RawInstr) (names : List String)
    (idx : Nat) : Bool :=
  (match ts.get? idx with
   | some t => EXIT_OPS_mem t.2.1
   | none => false) ||
  (List.range ts.length).any (fun s =>
    raw_name_is names ts s "LOAD_GLOBAL" "sys" &&
    raw_name_is names ts (s + 1) "LOAD_METHOD" "exit" &&
    ((raw_op_is_call ts (s + 2) && (idx == s + 2 || idx == s + 3)) ||
     (raw_op_is_const ts (s + 2) && raw_op_is_call ts (s + 3) &&
       (idx == s + 3 || idx == s + 4))))

/-- The exit-point flag the decoder actually assigns to the instruction
at position `idx`, expressed directly over the raw instruction stream:
the same guarded lookback test, applied to the window of the (at most
four) instructions preceding `idx`. -/
def amended_is_exit_point (ts : List RawInstr) (names : List String)
    (idx : Nat) : Bool :=
  match ts[idx]? with
  | some t => exit_point_flag names t.2.1 (takeLast 4 (ts.take idx))
  | none => false

/-- The quantity `X` described by claim C5: the sum over the strongly
connected components of the exit-point count of the instruction map
restricted to that component's nodes. -/
def spec_scc_exit_sum (c : CodeObj) : Nat :=
  let G := XBytecodeGraph_init c
  ((strongly_connected_components ⟨G.nodes, G.edges⟩).map
    (fun comp =>
      count_flag
        ((G.instr_map.filter (fun kv => comp.contains kv.1)).map Prod.snd)
        (fun i => i.is_exit_point))).sum

/-! ### Amended edge characterisation (claim C1)

The three explicit clauses that, as proved below, exactly describe the
edges `XBytecodeGraph.get_edges` generates. -/

/-- A fall-through edge between consecutive instructions whose first
member is not an exit point. -/
def fall_through_edge (vals : List XInstruction) (e : Nat × Nat) : Prop :=
  ∃ k a b, vals[k]? = some a ∧ vals[k + 1]? = some b ∧
    a.is_exit_point = false ∧ e = (a.offset, b.offset)

/-- A forward edge from any instruction whose raw argument equals the
offset of a later jump-target instruction (the implementation's
replacement for branch-point edges: it never checks `is_branch_point`
and can never point backward). -/
def arg_match_edge (vals : List XInstruction) (e : Nat × Nat) : Prop :=
  ∃ a b, a ∈ vals ∧ b ∈ vals ∧ a.offset < b.offset ∧
    b.is_jump_target = true ∧ a.arg = some b.offset ∧
    e = (a.offset, b.offset)

/-- An edge from an exit point to node 0, generated whenever the map has
at least two instructions. -/
def exit_edge (vals : List XInstruction) (e : Nat × Nat) : Prop :=
  2 ≤ vals.length ∧
    ∃ a, a ∈ vals ∧ a.is_exit_point = true ∧ e = (a.offset, 0)

/-! ## Concrete code objects used as witnesses and counterexamples

All are well-formed CPython 3.8 byte streams (even length, valid
opcodes). -/

/-- `LOAD_CONST 0; RETURN_VALUE` — a straight-line routine with one
return (the bytecode of `lambda: None`, constants aside). -/
def cStraight : CodeObj := ⟨[100, 0, 83, 0], [], [], 1⟩

/-- `LOAD_CONST 0; LOAD_CONST 0; RETURN_VALUE; RETURN_VALUE` — the
second return is unreachable dead code; its node is its own strongly
connected component, so the graph has two components and two exit
points. -/
def cTwoComp : CodeObj := ⟨[100, 0, 100, 0, 83, 0, 83, 0], [], [], 1⟩

/-- `LOAD_CONST 0; JUMP_ABSOLUTE 0; RETURN_VALUE` — a branch point at
offset 2 whose resolved target is the earlier offset 0. -/
def cBackJump : CodeObj := ⟨[100, 0, 113, 0, 83, 0], [], [], 1⟩

/-- `LOAD_CONST 0; LOAD_GLOBAL 'sys'; LOAD_METHOD 'exit'; NOP; NOP; NOP`
— loads sys.exit but never calls it; no call opcode occurs anywhere. -/
def cSysNop : CodeObj :=
  ⟨[100, 0, 116, 0, 160, 1, 9, 0, 9, 0, 9, 0], ["sys", "exit"], [], 1⟩

/-- `LOAD_CONST 0; RETURN_VALUE; COMPARE_OP 0` — the trailing comparison
is unreachable dead code that participates in no edge, so its offset 4 is
not a node of the graph although it is in the instruction map. -/
def cIsolated : CodeObj := ⟨[100, 0, 83, 0, 107, 0], [], [], 1⟩

/-! ## Infrastructure lemmas -/

theorem takeLast_of_length_le {α : Type} (n : Nat) (l : List α)
    (h : l.length ≤ n) : takeLast n l = l := by
  unfold takeLast
  rw [Nat.sub_eq_zero_of_le h, List.drop_zero]

theorem length_takeLast_le {α : Type} (n : Nat) (l : List α) :
    (takeLast n l).length ≤ n := by
  unfold takeLast
  rw [List.length_drop]
  omega

theorem drop_append_of_le {α : Type} (m : Nat) (A X : List α)
    (h : m ≤ A.length) : (A ++ X).drop m = A.drop m ++ X := by
  rw [List.drop_append_eq_append_drop, Nat.sub_eq_zero_of_le h, List.drop_zero]

theorem takeLast_append_takeLast {α : Type} (n : Nat) (A X : List α) :
    takeLast n (takeLast n A ++ X) = takeLast n (A ++ X) := by
  by_cases h : A.length ≤ n
  · rw [takeLast_of_length_le n A h]
  · have hm : A.length - n ≤ A.length := Nat.sub_le _ _
    show takeLast n (A.drop (A.length - n) ++ X) = _
    rw [← drop_append_of_le _ A X hm]
    unfold takeLast
    rw [List.drop_drop]
    congr 1
    simp only [List.length_drop, List.length_append]
    omega

theorem pairwise_map_fst {α : Type} :
    ∀ l : List α, (pairwise l).map Prod.fst = l
  | [] => rfl
  | [_] => rfl
  | a :: b :: rest => by
      simpa [pairwise] using pairwise_map_fst (b :: rest)

theorem pairwise_length {α : Type} :
    ∀ l : List α, (pairwise l).length = l.length := by
  intro l
  have h := congrArg List.length (pairwise_map_fst l)
  simpa using h

theorem pairwise_getElem? {α : Type} :
    ∀ (l : List α) (k : Nat),
      (pairwise l)[k]? = (l[k]?).map (fun a => (a, l[k + 1]?))
  | [], _ => by simp [pairwise]
  | [a], 0 => by simp [pairwise]
  | [a], k + 1 => by simp [pairwise]
  | a :: b :: rest, 0 => by simp [pairwise]
  | a :: b :: rest, k + 1 => by
      simpa [pairwise] using pairwise_getElem? (b :: rest) k

theorem unpack_opargs_get_offset :
    ∀ (code : List Nat) (i ext k : Nat) (t : RawInstr),
      (unpack_opargs code i ext)[k]? = some t → t.1 = i + 2 * k
  | [], i, ext, k, t => by simp [unpack_opargs]
  | [x], i, ext, k, t => by simp [unpack_opargs]
  | op :: argb :: rest, i, ext, k, t => by
      intro h
      cases k with
      | zero =>
          unfold unpack_opargs at h
          split at h <;> (simp at h; subst h; simp)
      | succ k =>
          unfold unpack_opargs at h
          split at h
          · simp at h
            have hr := unpack_opargs_get_offset rest (i + 2) _ k t h
            omega
          · simp at h
            have hr := unpack_opargs_get_offset rest (i + 2) ext k t h
            omega

theorem gib_go_length (names : List String) (ls : List (Nat × Int))
    (lo : Int) (labels : List Nat) :
    ∀ (pw : List (RawInstr × Option RawInstr)) (sl : Option Int)
      (lf : List RawInstr),
      (gib_go names ls lo labels pw sl lf).length = pw.length
  | [], _, _ => rfl
  | (t0, s0) :: rest, sl, lf => by
      simpa [gib_go] using gib_go_length names ls lo labels rest _ _

theorem gib_go_getElem? (names : List String) (ls : List (Nat × Int))
    (lo : Int) (labels : List Nat) :
    ∀ (pw : List (RawInstr × Option RawInstr)) (sl : Option Int)
      (lf : List RawInstr), lf.length ≤ 4 →
    ∀ (k : Nat) (t : RawInstr) (succ : Option RawInstr),
      pw[k]? = some (t, succ) →
      ∃ instr, (gib_go names ls lo labels pw sl lf)[k]? = some instr ∧
        instr.offset = t.1 ∧ instr.opcode = t.2.1 ∧ instr.arg = t.2.2 ∧
        instr.opname = opname t.2.1 ∧
        instr.is_entry_point = (t.1 == 0) ∧
        instr.is_jump_target = decide (t.1 ∈ labels) ∧
        instr.is_decision_point = decision_point_flag t.2.1 succ ∧
        instr.is_branch_point = BRANCH_OPS_mem t.2.1 ∧
        instr.is_exit_point =
          exit_point_flag names t.2.1
            (takeLast 4 (lf ++ (pw.map Prod.fst).take k))
  | [], sl, lf, hlf, k, t, succ, h => by simp at h
  | (t0, s0) :: rest, sl, lf, hlf, 0, t, succ, h => by
      simp at h
      obtain ⟨rfl, rfl⟩ := h
      simp only [gib_go, List.getElem?_cons_zero]
      refine ⟨_, rfl, rfl, rfl, rfl, rfl, rfl, rfl, rfl, rfl, ?_⟩
      rw [List.take_zero, List.append_nil, takeLast_of_length_le 4 lf hlf]
  | (t0, s0) :: rest, sl, lf, hlf, k + 1, t, succ, h => by
      simp at h
      have hlf' : (takeLast 4 (lf ++ [t0])).length ≤ 4 :=
        length_takeLast_le 4 (lf ++ [t0])
      obtain ⟨instr, hget, h1, h2, h3, h4, h5, h6, h7, h8, h9⟩ :=
        gib_go_getElem? names ls lo labels rest _
          (takeLast 4 (lf ++ [t0])) hlf' k t succ h
      refine ⟨instr, ?_, h1, h2, h3, h4, h5, h6, h7, h8, ?_⟩
      · simpa [gib_go] using hget
      · rw [h9, takeLast_append_takeLast, List.append_assoc]
        rfl

theorem get_instructions_bytes_length (code : List Nat)
    (names : List String) (ls : List (Nat × Int)) (lo : Int) :
    (get_instructions_bytes code names ls lo).length =
      (unpack_opargs code 0 0).length := by
  unfold get_instructions_bytes
  rw [gib_go_length, pairwise_length]

theorem instr_values_eq (c : CodeObj) :
    instr_values c =
      get_instructions_bytes c.co_code c.co_names
        (findlinestarts c.co_code c.co_lnotab c.co_firstlineno) 0 := by
  unfold instr_values XBytecode_instr_map
  rw [List.map_map]
  have hcomp : (Prod.snd ∘ fun i : XInstruction => (i.offset, i)) = id := rfl
  rw [hcomp, List.map_id]

/-- The central decoder lemma: the instruction at position `k` of the
decoded sequence corresponds to the raw triple at position `k` of
`_unpack_opargs`, its offset is `2*k`, and its classification flags are
the documented functions of that triple, its successor, the label set and
the lookback window. -/
theorem instr_values_spec (c : CodeObj) (k : Nat) (i : XInstruction)
    (h : (instr_values c)[k]? = some i) :
    ∃ t : RawInstr, (unpack_opargs c.co_code 0 0)[k]? = some t ∧
      i.offset = 2 * k ∧ i.opcode = t.2.1 ∧ i.arg = t.2.2 ∧
      i.opname = opname t.2.1 ∧
      i.is_entry_point = (t.1 == 0) ∧
      i.is_jump_target = decide (t.1 ∈ findlabels c.co_code) ∧
      i.is_decision_point =
        decision_point_flag t.2.1 ((unpack_opargs c.co_code 0 0)[k + 1]?) ∧
      i.is_branch_point = BRANCH_OPS_mem t.2.1 ∧
      i.is_exit_point =
        amended_is_exit_point (unpack_opargs c.co_code 0 0) c.co_names k := by
  rw [instr_values_eq] at h
  have hk : k < (get_instructions_bytes c.co_code c.co_names
      (findlinestarts c.co_code c.co_lnotab c.co_firstlineno) 0).length := by
    obtain ⟨hlt, _⟩ := List.getElem?_eq_some.mp h
    exact hlt
  rw [get_instructions_bytes_length] at hk
  have ht : (unpack_opargs c.co_code 0 0)[k]? =
      some ((unpack_opargs c.co_code 0 0).get ⟨k, hk⟩) :=
    List.getElem?_eq_getElem hk
  have hpw : (pairwise (unpack_opargs c.co_code 0 0))[k]? =
      some ((unpack_opargs c.co_code 0 0).get ⟨k, hk⟩,
        (unpack_opargs c.co_code 0 0)[k + 1]?) := by
    rw [pairwise_getElem?, ht]
    rfl
  obtain ⟨instr, hget, h1, h2, h3, h4, h5, h6, h7, h8, h9⟩ :=
    gib_go_getElem? c.co_names
      (findlinestarts c.co_code c.co_lnotab c.co_firstlineno) 0
      (findlabels c.co_code) (pairwise (unpack_opargs c.co_code 0 0)) none []
      (by simp) k _ ((unpack_opargs c.co_code 0 0)[k + 1]?) hpw
  have hinstr : instr = i := by
    have hgi : (get_instructions_bytes c.co_code c.co_names
        (findlinestarts c.co_code c.co_lnotab c.co_firstlineno) 0)[k]? =
        some instr := hget
    rw [h] at hgi
    exact ((Option.some.injEq _ _).mp hgi).symm
  subst hinstr
  have hoff : ((unpack_opargs c.co_code 0 0).get ⟨k, hk⟩).1 = 2 * k := by
    have hu := unpack_opargs_get_offset c.co_code 0 0 k _ ht
    omega
  refine ⟨_, ht, by rw [h1, hoff], h2, h3, h4, h5, h6, h7, h8, ?_⟩
  rw [h9]
  unfold amended_is_exit_point
  rw [ht, pairwise_map_fst]
  rw [List.nil_append]

theorem edges_add_node (g : PyDiGraph) (n : Nat) :
    (add_node g n).edges = g.edges := by
  unfold add_node
  split <;> rfl

theorem mem_edges_add_edge (g : PyDiGraph) (e e' : Nat × Nat) :
    e' ∈ (add_edge g e).edges ↔ e' ∈ g.edges ∨ e' = e := by
  unfold add_edge
  simp only [edges_add_node]
  split <;> rename_i hmem
  · simp only [edges_add_node]
    constructor
    · exact Or.inl
    · rintro (h | rfl)
      · exact h
      · simpa [edges_add_node] using hmem
  · simp [edges_add_node]

theorem mem_edges_add_edges_from :
    ∀ (es : List (Nat × Nat)) (g : PyDiGraph) (e' : Nat × Nat),
      e' ∈ (add_edges_from g es).edges ↔ e' ∈ g.edges ∨ e' ∈ es
  | [], g, e' => by simp [add_edges_from]
  | e :: es, g, e' => by
      unfold add_edges_from
      rw [show (e :: es).foldl add_edge g = es.foldl add_edge (add_edge g e)
        from rfl]
      rw [show es.foldl add_edge (add_edge g e) =
        add_edges_from (add_edge g e) es from rfl]
      rw [mem_edges_add_edges_from es (add_edge g e) e', mem_edges_add_edge]
      simp only [List.mem_cons]
      tauto

theorem mem_nodes_add_node (g : PyDiGraph) (n m : Nat) :
    m ∈ (add_node g n).nodes ↔ m ∈ g.nodes ∨ m = n := by
  unfold add_node
  split <;> rename_i hmem
  · constructor
    · exact Or.inl
    · rintro (h | rfl)
      · exact h
      · exact hmem
  · simp

theorem nodes_add_edge (g : PyDiGraph) (e : Nat × Nat) :
    (add_edge g e).nodes = (add_node (add_node g e.1) e.2).nodes := by
  by_cases h : e ∈ (add_node (add_node g e.1) e.2).edges <;> simp [add_edge, h]

theorem mem_nodes_add_edge (g : PyDiGraph) (e : Nat × Nat) (m : Nat) :
    m ∈ (add_edge g e).nodes ↔ m ∈ g.nodes ∨ m = e.1 ∨ m = e.2 := by
  rw [nodes_add_edge, mem_nodes_add_node, mem_nodes_add_node]
  tauto

theorem mem_nodes_add_edges_from :
    ∀ (es : List (Nat × Nat)) (g : PyDiGraph) (m : Nat),
      m ∈ (add_edges_from g es).nodes ↔
        m ∈ g.nodes ∨ ∃ e ∈ es, m = e.1 ∨ m = e.2
  | [], g, m => by simp [add_edges_from]
  | e :: es, g, m => by
      unfold add_edges_from
      rw [show (e :: es).foldl add_edge g = es.foldl add_edge (add_edge g e)
        from rfl]
      rw [show es.foldl add_edge (add_edge g e) =
        add_edges_from (add_edge g e) es from rfl]
      rw [mem_nodes_add_edges_from es (add_edge g e) m, mem_nodes_add_edge]
      simp only [List.mem_cons]
      constructor
      · rintro ((h | h | h) | ⟨e', he', h⟩)
        · exact Or.inl h
        · exact Or.inr ⟨e, Or.inl rfl, Or.inl h⟩
        · exact Or.inr ⟨e, Or.inl rfl, Or.inr h⟩
        · exact Or.inr ⟨e', Or.inr he', h⟩
      · rintro (h | ⟨e', (rfl | he'), h⟩)
        · exact Or.inl (Or.inl h)
        · exact Or.inl (Or.inr h)
        · exact Or.inr ⟨e', he', h⟩

theorem mem_pair_edges (a b : XInstruction) (e : Nat × Nat) :
    e ∈ pair_edges a b ↔
      (b.offset = a.offset + 2 ∧ a.is_exit_point = false ∧
        e = (a.offset, b.offset)) ∨
      (b.is_jump_target = true ∧ a.arg = some b.offset ∧
        e = (a.offset, b.offset)) ∨
      (a.is_exit_point = true ∧ e = (a.offset, 0)) ∨
      (b.is_exit_point = true ∧ e = (b.offset, 0)) := by
  unfold pair_edges
  by_cases h1 : b.offset = a.offset + 2 <;>
    by_cases h2 : a.is_exit_point = true <;>
    by_cases h3 : b.is_jump_target = true <;>
    by_cases h4 : a.arg = some b.offset <;>
    by_cases h5 : b.is_exit_point = true <;>
    simp_all

theorem mem_get_edges (im : List (Nat × XInstruction)) (e : Nat × Nat) :
    e ∈ get_edges im ↔
      ∃ a ∈ im.map Prod.snd, ∃ b ∈ im.map Prod.snd,
        a.offset < b.offset ∧ e ∈ pair_edges a b := by
  simp only [get_edges]
  constructor
  · intro h
    rw [List.mem_flatMap] at h
    obtain ⟨a, ha, h⟩ := h
    rw [List.mem_flatMap] at h
    obtain ⟨b, hb, h⟩ := h
    rw [List.mem_filter] at hb
    exact ⟨a, ha, b, hb.1, by simpa using hb.2, h⟩
  · rintro ⟨a, ha, b, hb, hlt, h⟩
    rw [List.mem_flatMap]
    refine ⟨a, ha, ?_⟩
    rw [List.mem_flatMap]
    exact ⟨b, List.mem_filter.mpr ⟨hb, by simpa using hlt⟩, h⟩

theorem edges_XBytecodeGraph_init (c : CodeObj) (e : Nat × Nat) :
    e ∈ (XBytecodeGraph_init c).edges ↔
      e ∈ get_edges (XBytecode_instr_map c) := by
  show e ∈ (add_edges_from ⟨[], []⟩ (get_edges (XBytecode_instr_map c))).edges ↔ _
  rw [mem_edges_add_edges_from]
  simp

theorem nodes_XBytecodeGraph_init (c : CodeObj) (m : Nat) :
    m ∈ (XBytecodeGraph_init c).nodes ↔
      ∃ e ∈ get_edges (XBytecode_instr_map c), m = e.1 ∨ m = e.2 := by
  show m ∈ (add_edges_from ⟨[], []⟩ (get_edges (XBytecode_instr_map c))).nodes ↔ _
  rw [mem_nodes_add_edges_from]
  simp

theorem instr_values_offset (c : CodeObj) (k : Nat) (i : XInstruction)
    (h : (instr_values c)[k]? = some i) : i.offset = 2 * k := by
  obtain ⟨t, _, hoff, _⟩ := instr_values_spec c k i h
  exact hoff

/-- The exact edge set generated by `XBytecodeGraph.get_edges` on a
decoded instruction map: fall-through edges between consecutive
non-exit-prefixed instructions, forward raw-argument matches on jump
targets, and exit edges to node 0 whenever at least two instructions
exist. -/
theorem get_edges_characterisation (c : CodeObj) (e : Nat × Nat) :
    e ∈ get_edges (XBytecode_instr_map c) ↔
      fall_through_edge (instr_values c) e ∨
      arg_match_edge (instr_values c) e ∨
      exit_edge (instr_values c) e := by
  rw [mem_get_edges]
  constructor
  · rintro ⟨a, ha, b, hb, hlt, hpe⟩
    obtain ⟨i, hi⟩ := List.getElem?_of_mem ha
    obtain ⟨j, hj⟩ := List.getElem?_of_mem hb
    have hoa : a.offset = 2 * i := instr_values_offset c i a hi
    have hob : b.offset = 2 * j := instr_values_offset c j b hj
    have hjlen : j < (instr_values c).length :=
      (List.getElem?_eq_some.mp hj).1
    rcases (mem_pair_edges a b e).mp hpe with
      ⟨hfall, hex, rfl⟩ | ⟨hjt, harg, rfl⟩ | ⟨hex, rfl⟩ | ⟨hex, rfl⟩
    · refine Or.inl ⟨i, a, b, hi, ?_, hex, rfl⟩
      have hji : j = i + 1 := by omega
      rw [← hji]
      exact hj
    · exact Or.inr (Or.inl ⟨a, b, ha, hb, hlt, hjt, harg, rfl⟩)
    · refine Or.inr (Or.inr ⟨by omega, a, ha, hex, rfl⟩)
    · refine Or.inr (Or.inr ⟨by omega, b, hb, hex, rfl⟩)
  · rintro (⟨k, a, b, hk, hk1, hex, rfl⟩ | ⟨a, b, ha, hb, hlt, hjt, harg, rfl⟩ |
      ⟨hlen, a, ha, hex, rfl⟩)
    · have hoa : a.offset = 2 * k := instr_values_offset c k a hk
      have hob : b.offset = 2 * (k + 1) := instr_values_offset c (k + 1) b hk1
      refine ⟨a, List.getElem?_mem hk, b, List.getElem?_mem hk1,
        by omega, ?_⟩
      exact (mem_pair_edges a b _).mpr (Or.inl ⟨by omega, hex, rfl⟩)
    · exact ⟨a, ha, b, hb, hlt, (mem_pair_edges a b _).mpr
        (Or.inr (Or.inl ⟨hjt, harg, rfl⟩))⟩
    · obtain ⟨i, hi⟩ := List.getElem?_of_mem ha
      have hoa : a.offset = 2 * i := instr_values_offset c i a hi
      have hilen : i < (instr_values c).length :=
        (List.getElem?_eq_some.mp hi).1
      by_cases hzero : i = 0
      · have hlen1 : 1 < (instr_values c).length := by omega
        have hb : (instr_values c)[1]? = some ((instr_values c).get ⟨1, hlen1⟩) :=
          List.getElem?_eq_getElem hlen1
        have hob : ((instr_values c).get ⟨1, hlen1⟩).offset = 2 * 1 :=
          instr_values_offset c 1 _ hb
        refine ⟨a, ha, (instr_values c).get ⟨1, hlen1⟩, List.getElem?_mem hb,
          by omega, ?_⟩
        exact (mem_pair_edges a _ _).mpr (Or.inr (Or.inr (Or.inl ⟨hex, rfl⟩)))
      · have hlen0 : 0 < (instr_values c).length := by omega
        have hb : (instr_values c)[0]? = some ((instr_values c).get ⟨0, hlen0⟩) :=
          List.getElem?_eq_getElem hlen0
        have hob : ((instr_values c).get ⟨0, hlen0⟩).offset = 2 * 0 :=
          instr_values_offset c 0 _ hb
        refine ⟨(instr_values c).get ⟨0, hlen0⟩, List.getElem?_mem hb, a, ha,
          by omega, ?_⟩
        exact (mem_pair_edges _ a _).mpr (Or.inr (Or.inr (Or.inr ⟨hex, rfl⟩)))

/-! ## Claim theorems -/

/-- C1 (counterexample): the claimed edge set is wrong on the code.  For
the routine `cBackJump`, whose instruction at offset 2 is a branch point
(JUMP_ABSOLUTE) with resolved target 0, the claim requires the backward
branch edge (2, 0), but `get_edges` pairs instructions only with later
offsets and therefore never produces it. -/
theorem C1_counterexample :
    ¬ (∀ e : Nat × Nat,
        e ∈ (XBytecodeGraph_init cBackJump).edges ↔
          e ∈ spec_edges_C1 (instr_values cBackJump)) := by
  intro h
  have h1 : (2, 0) ∈ (XBytecodeGraph_init cBackJump).edges :=
    (h (2, 0)).mpr (by decide)
  exact absurd h1 (by decide)

/-- C1 (amended): for every code object the CFG builder produces exactly
these edges: a fall-through edge between consecutive instructions unless
the first is an exit point; a forward edge from any instruction whose raw
argument equals the offset of a later jump-target instruction (branch
points with backward or non-jump-target targets produce no edge, and
non-branch instructions with a matching argument do); and an edge to
node 0 from every exit point, provided the routine has at least two
instructions. -/
theorem C1_edges_amended (c : CodeObj) (e : Nat × Nat) :
    e ∈ (XBytecodeGraph_init c).edges ↔
      fall_through_edge (instr_values c) e ∨
      arg_match_edge (instr_values c) e ∨
      exit_edge (instr_values c) e := by
  rw [edges_XBytecodeGraph_init]
  exact get_edges_characterisation c e

/-- C2: on a single-strongly-connected-component graph `mccabe_complexity`
returns `e - n + 2`; on more than one component it fails with the
connectivity `TypeError` while `mccabe_generalised_complexity` still
returns `e - n + 2p`. -/
theorem C2_mccabe_connectivity (c : CodeObj) :
    (number_strongly_connected_components
        ⟨(XBytecodeGraph_init c).nodes, (XBytecodeGraph_init c).edges⟩ = 1 →
      mccabe_complexity c =
        .ok (((XBytecodeGraph_init c).edges.length : Int) -
          ((XBytecodeGraph_init c).nodes.length : Int) + 2)) ∧
    (1 < number_strongly_connected_components
        ⟨(XBytecodeGraph_init c).nodes, (XBytecodeGraph_init c).edges⟩ →
      mccabe_complexity c =
        .error (.typeError "The bytecode graph of the input is not connected") ∧
      mccabe_generalised_complexity c =
        ((XBytecodeGraph_init c).edges.length : Int) -
          ((XBytecodeGraph_init c).nodes.length : Int) +
          2 * (number_strongly_connected_components
            ⟨(XBytecodeGraph_init c).nodes, (XBytecodeGraph_init c).edges⟩ : Int)) := by
  constructor
  · intro h
    simp only [mccabe_complexity]
    rw [h]
    simp
  · intro h
    refine ⟨?_, rfl⟩
    simp only [mccabe_complexity]
    rw [if_pos h]

/-- C2 (witness): at the straight-line routine the graph has one
component and McCabe returns 2; at the two-component routine McCabe
fails with the connectivity error while the generalised variant returns
4. -/
theorem C2_witness :
    number_strongly_connected_components
      ⟨(XBytecodeGraph_init cStraight).nodes, (XBytecodeGraph_init cStraight).edges⟩ = 1 ∧
    mccabe_complexity cStraight = .ok 2 ∧
    1 < number_strongly_connected_components
      ⟨(XBytecodeGraph_init cTwoComp).nodes, (XBytecodeGraph_init cTwoComp).edges⟩ ∧
    mccabe_complexity cTwoComp =
      .error (.typeError "The bytecode graph of the input is not connected") ∧
    mccabe_generalised_complexity cTwoComp = 4 := by
  refine ⟨by decide, ?_, by decide, ?_, ?_⟩
  · exact ((C2_mccabe_connectivity cStraight).1 (by decide)).trans
      (congrArg Except.ok (by decide))
  · exact (((C2_mccabe_connectivity cTwoComp).2 (by decide))).1
  · exact (((C2_mccabe_connectivity cTwoComp).2 (by decide))).2.trans (by decide)

/-- C3: `harrison_complexity` returns exactly `d - x + 2` where `d` and
`x` are the number of decision-point and exit-point flags over the
decoded instruction sequence; it is a total pure function with no
connectivity precondition. -/
theorem C3_harrison (c : CodeObj) :
    harrison_complexity c =
      (((instr_values c).filter (fun i => i.is_decision_point)).length : Int) -
        (((instr_values c).filter (fun i => i.is_exit_point)).length : Int) + 2 := by
  unfold harrison_complexity XBytecodeGraph_init count_flag
  simp only [List.countP_eq_length_filter, instr_values]

/-- C4 (counterexample): the claimed offsets are wrong.  At the
straight-line routine the graph has one component, McCabe is 2, but
Henderson-Sellers-Tegarden is 1 (not 2 - 2 = 0) and Henderson-Sellers is
2 (not 2 - 1 = 1). -/
theorem C4_counterexample :
    number_strongly_connected_components
      ⟨(XBytecodeGraph_init cStraight).nodes, (XBytecodeGraph_init cStraight).edges⟩ = 1 ∧
    mccabe_complexity cStraight = .ok 2 ∧
    henderson_sellers_tegarden_complexity cStraight = 1 ∧
    ((1 : Int) ≠ 2 - 2) ∧
    henderson_sellers_complexity cStraight = 2 ∧
    ((2 : Int) ≠ 2 - 1) := by
  refine ⟨by decide, rfl, by decide, by decide, by decide, by decide⟩

/-- C4 (amended): when the graph has exactly one strongly connected
component, generalised McCabe equals McCabe's value, Henderson-Sellers-
Tegarden equals McCabe minus one, and Henderson-Sellers equals McCabe
itself. -/
theorem C4_relations_amended (c : CodeObj)
    (h : number_strongly_connected_components
      ⟨(XBytecodeGraph_init c).nodes, (XBytecodeGraph_init c).edges⟩ = 1) :
    mccabe_complexity c = .ok (mccabe_generalised_complexity c) ∧
    henderson_sellers_tegarden_complexity c =
      mccabe_generalised_complexity c - 1 ∧
    henderson_sellers_complexity c = mccabe_generalised_complexity c := by
  simp only [mccabe_complexity, mccabe_generalised_complexity,
    henderson_sellers_tegarden_complexity, henderson_sellers_complexity]
  rw [h]
  refine ⟨by norm_num, by push_cast; ring, by push_cast; ring⟩

/-- C4 (witness): the amended relations hold at the straight-line
routine, whose graph has one strongly connected component. -/
theorem C4_witness :
    number_strongly_connected_components
      ⟨(XBytecodeGraph_init cStraight).nodes, (XBytecodeGraph_init cStraight).edges⟩ = 1 ∧
    (mccabe_complexity cStraight = .ok (mccabe_generalised_complexity cStraight) ∧
      henderson_sellers_tegarden_complexity cStraight =
        mccabe_generalised_complexity cStraight - 1 ∧
      henderson_sellers_complexity cStraight =
        mccabe_generalised_complexity cStraight) :=
  ⟨by decide, C4_relations_amended cStraight (by decide)⟩

/-- C5 (code bug, evaluation): on the two-component routine with two exit
points the code returns `e - n + p*x + 2 = 4 - 4 + 4 + 2 = 6`, because
`G.get_subgraph(G, comp)` passes the whole graph as the node selection so
every component contributes the graph's full exit-point count; the
claimed per-component sum `X` is 2, which would give 4. -/
theorem C5_code_evaluation :
    henderson_sellers_tegarden_generalised_complexity cTwoComp = 6 ∧
    ((XBytecodeGraph_init cTwoComp).edges.length : Int) -
        ((XBytecodeGraph_init cTwoComp).nodes.length : Int) +
        (spec_scc_exit_sum cTwoComp : Int) + 2 = 4 := by
  refine ⟨by decide, by decide⟩

/-- C8: `get_subgraph` called with neither a node set nor an edge set
fails immediately with the validation `CCMException` and returns no
graph. -/
theorem C8_validation_error (g : XBytecodeGraph) :
    get_subgraph edge_elem_nodes g none none =
      .error (.ccmException "Either a subset of nodes or edges must be provided") :=
  rfl

/-- C6 (counterexample): the claimed iff is wrong on the code.  In
`cSysNop` the routine loads `sys` and its `exit` method but never invokes
anything — no call opcode occurs at all — yet the decoder flags the NOP
at position 3 as an exit point, because the second disjunct of the
lookback test escapes the POP_TOP guard (operator precedence) and no
conjunct ever checks for an invocation. -/
theorem C6_counterexample :
    ((instr_values cSysNop)[3]?).map (fun i => i.is_exit_point) = some true ∧
    spec_is_exit_point (unpack_opargs cSysNop.co_code 0 0)
      cSysNop.co_names 3 = false := by
  refine ⟨by decide, by decide⟩

/-- C6 (amended): an instruction's exit flag is true iff its operation is
RETURN_VALUE or RAISE_VARARGS, or the guarded lookback test over the
window of its at most four predecessors succeeds — that is, either the
operation is POP_TOP and window slots 0 and 1 are LOAD_GLOBAL 'sys' and
LOAD_METHOD 'exit', or window slots 1 and 2 are LOAD_GLOBAL 'sys' and
LOAD_METHOD 'exit' regardless of the current operation; the invocation
itself is never inspected, and a name-index lookup failure in the first
disjunct aborts the whole test. -/
theorem C6_exit_flag_amended (c : CodeObj) (k : Nat) (i : XInstruction)
    (h : (instr_values c)[k]? = some i) :
    i.is_exit_point =
      amended_is_exit_point (unpack_opargs c.co_code 0 0) c.co_names k := by
  obtain ⟨t, ht, h1, h2, h3, h4, h5, h6, h7, h8, h9⟩ := instr_values_spec c k i h
  exact h9

/-- C6 (witness): the amended characterisation evaluated at `cSysNop`,
position 3: the decoded NOP is flagged as an exit point and the amended
flag agrees. -/
theorem C6_witness :
    amended_is_exit_point (unpack_opargs cSysNop.co_code 0 0)
      cSysNop.co_names 3 = true ∧
    ∃ i, (instr_values cSysNop)[3]? = some i ∧ i.is_exit_point = true := by
  have hlen : 3 < (instr_values cSysNop).length := by decide
  have h3 : (instr_values cSysNop)[3]? =
      some ((instr_values cSysNop).get ⟨3, hlen⟩) := List.getElem?_eq_getElem hlen
  refine ⟨by decide, (instr_values cSysNop).get ⟨3, hlen⟩, h3, ?_⟩
  exact (C6_exit_flag_amended cSysNop 3 _ h3).trans (by decide)

/-- C7 (counterexample): the claim fails on the code.  In `cIsolated` the
unreachable COMPARE_OP at offset 4 participates in no edge, so 4 is not a
graph node; extracting the subgraph on the node subset S = [0] leaves
that instruction in the map (its key is never in the removed node set),
so the resulting map holds offsets [0, 4] rather than exactly [0], and
the recomputed decision count is 1 whereas the count over the
instructions at offsets in S is 0. -/
theorem C7_counterexample :
    (get_subgraph edge_elem_nodes (XBytecodeGraph_init cIsolated)
        (some [0]) none).toOption.map
      (fun H => (H.instr_map.map Prod.fst, H.number_decision_points)) =
      some ([0, 4], 1) ∧
    ¬ ((4 : Nat) ∈ ([0] : List Nat)) ∧
    count_flag
      (((XBytecodeGraph_init cIsolated).instr_map.filter
        (fun kv => decide (kv.1 ∈ ([0] : List Nat)))).map Prod.snd)
      (fun i => i.is_decision_point) = 0 := by
  refine ⟨by decide, by decide, by decide⟩

theorem subgraph_instr_filter_mem (M : List (Nat × XInstruction))
    (N S : List Nat) (kv : Nat × XInstruction) :
    kv ∈ M.filter
        (fun kv => !((N.filter (fun n => !(S.contains n))).contains kv.1)) ↔
      kv ∈ M ∧ (kv.1 ∈ S ∨ kv.1 ∉ N) := by
  rw [List.mem_filter]
  have hrw : (!((N.filter (fun n => !(S.contains n))).contains kv.1)) = true ↔
      (kv.1 ∈ S ∨ kv.1 ∉ N) := by
    rw [Bool.not_eq_true']
    rw [← Bool.not_eq_true]
    constructor
    · intro hc
      by_cases hS1 : kv.1 ∈ S
      · exact Or.inl hS1
      · refine Or.inr fun hN => ?_
        apply hc
        rw [List.elem_iff]
        exact List.mem_filter.mpr ⟨hN, by simpa using hS1⟩
    · intro h hc
      rw [List.elem_iff] at hc
      rw [List.mem_filter] at hc
      rcases h with h | h
      · have h2 := hc.2
        simp [h] at h2
      · exact h hc.1
  rw [hrw]

/-- C7 (amended): for every code object and non-empty node subset S,
`get_subgraph` succeeds and returns a graph whose instruction map holds
exactly the instructions whose offset is in S together with those whose
offset is not a node of the parent graph (instructions that participate
in no edge are never removed), and whose four aggregate counts are
recomputed over exactly those surviving instructions. -/
theorem C7_subgraph_amended (c : CodeObj) (S : List Nat) (hS : S ≠ []) :
    ∃ H, get_subgraph edge_elem_nodes (XBytecodeGraph_init c)
        (some S) none = .ok H ∧
      (∀ kv : Nat × XInstruction,
        kv ∈ H.instr_map ↔ kv ∈ (XBytecodeGraph_init c).instr_map ∧
          (kv.1 ∈ S ∨ kv.1 ∉ (XBytecodeGraph_init c).nodes)) ∧
      H.number_entry_points =
        count_flag (H.instr_map.map Prod.snd) (fun i => i.is_entry_point) ∧
      H.number_decision_points =
        count_flag (H.instr_map.map Prod.snd) (fun i => i.is_decision_point) ∧
      H.number_branch_points =
        count_flag (H.instr_map.map Prod.snd) (fun i => i.is_branch_point) ∧
      H.number_exit_points =
        count_flag (H.instr_map.map Prod.snd) (fun i => i.is_exit_point) := by
  have hT : pyTruthy (some S) = true := by
    simp [pyTruthy, hS]
  have hc : (!(pyTruthy (none : Option (List (Nat × Nat))) ||
      pyTruthy (some S))) = false := by
    simp [pyTruthy, hS]
  simp only [get_subgraph, hc, hT]
  simp only [Bool.false_eq_true, if_false, if_true, Option.getD_some]
  refine ⟨_, rfl, ?_, rfl, rfl, rfl, rfl⟩
  intro kv
  exact subgraph_instr_filter_mem _ _ _ kv

/-- C7 (witness): the amended characterisation applied at `cIsolated`
with S = [0]. -/
theorem C7_witness :
    ∃ H, get_subgraph edge_elem_nodes (XBytecodeGraph_init cIsolated)
        (some [0]) none = .ok H ∧
      (∀ kv : Nat × XInstruction,
        kv ∈ H.instr_map ↔ kv ∈ (XBytecodeGraph_init cIsolated).instr_map ∧
          (kv.1 ∈ [0] ∨ kv.1 ∉ (XBytecodeGraph_init cIsolated).nodes)) ∧
      H.number_entry_points =
        count_flag (H.instr_map.map Prod.snd) (fun i => i.is_entry_point) ∧
      H.number_decision_points =
        count_flag (H.instr_map.map Prod.snd) (fun i => i.is_decision_point) ∧
      H.number_branch_points =
        count_flag (H.instr_map.map Prod.snd) (fun i => i.is_branch_point) ∧
      H.number_exit_points =
        count_flag (H.instr_map.map Prod.snd) (fun i => i.is_exit_point) :=
  C7_subgraph_amended cIsolated [0] (by decide)

/-- C9 (counterexample): the sink is not distinct from the real offsets.
At the straight-line routine the exit edge generated for the RETURN_VALUE
at offset 2 targets node 0, and offset 0 is the real entry-point
instruction's offset. -/
theorem C9_counterexample :
    (2, 0) ∈ (XBytecodeGraph_init cStraight).edges ∧
    ((instr_values cStraight)[1]?).map (fun i => i.is_exit_point) = some true ∧
    ((instr_values cStraight)[0]?).map (fun i => (i.offset, i.is_entry_point)) =
      some (0, true) := by
  refine ⟨by decide, by decide, by decide⟩

/-- C9 (amended): the synthetic sink is represented by the literal value
0, which always coincides with the entry instruction's offset: every exit
point's sink edge targets node 0 (once the routine has at least two
instructions), and the instruction at position 0 — when it exists — sits
at offset 0 with its entry flag set. -/
theorem C9_sink_amended (c : CodeObj) :
    (∀ i ∈ instr_values c, i.is_exit_point = true →
      2 ≤ (instr_values c).length →
      (i.offset, 0) ∈ (XBytecodeGraph_init c).edges) ∧
    (instr_values c ≠ [] →
      ∃ i, (instr_values c)[0]? = some i ∧ i.offset = 0 ∧
        i.is_entry_point = true) := by
  constructor
  · intro i hi hex hlen
    rw [edges_XBytecodeGraph_init, get_edges_characterisation]
    exact Or.inr (Or.inr ⟨hlen, i, hi, hex, rfl⟩)
  · intro hne
    have hlen : 0 < (instr_values c).length := List.length_pos.mpr hne
    have h0 : (instr_values c)[0]? = some ((instr_values c).get ⟨0, hlen⟩) :=
      List.getElem?_eq_getElem hlen
    obtain ⟨t, ht, hoff, _, _, _, hentry, _⟩ := instr_values_spec c 0 _ h0
    have ht1 : t.1 = 0 := by
      have hu := unpack_opargs_get_offset c.co_code 0 0 0 t ht
      omega
    refine ⟨_, h0, by omega, ?_⟩
    rw [hentry, ht1]
    rfl

/-- C9 (witness): at the straight-line routine the RETURN at offset 2
gets the sink edge (2, 0) and the entry instruction sits at offset 0. -/
theorem C9_witness :
    (2, 0) ∈ (XBytecodeGraph_init cStraight).edges ∧
    (∃ i, (instr_values cStraight)[0]? = some i ∧ i.offset = 0 ∧
      i.is_entry_point = true) := by
  constructor
  · exact (C9_sink_amended cStraight).1
      { opname := "RETURN_VALUE", opcode := 83, arg := none, offset := 2,
        starts_line := some 1, is_entry_point := false,
        is_jump_target := false, is_decision_point := false,
        is_branch_point := false, is_exit_point := true }
      (by decide) (by decide) (by decide)
  · exact (C9_sink_amended cStraight).2 (by decide)

/-- C10: a successful `get_subgraph` call leaves the receiver unchanged —
its node set, edge set, instruction map and all four cached point counts
are identical after the call — returns a fresh graph, and the returned
value depends on the receiver only through its `code` attribute (the
method rebuilds the graph from `self.code` and never reads or writes any
other receiver state). -/
theorem C10_frame (g : XBytecodeGraph) (ns : Option (List Nat))
    (es : Option (List (Nat × Nat)))
    (h : (pyTruthy ns || pyTruthy es) = true) :
    ((get_subgraph_call edge_elem_nodes g ns es).2.nodes = g.nodes ∧
      (get_subgraph_call edge_elem_nodes g ns es).2.edges = g.edges ∧
      (get_subgraph_call edge_elem_nodes g ns es).2.instr_map = g.instr_map ∧
      (get_subgraph_call edge_elem_nodes g ns es).2.number_entry_points =
        g.number_entry_points ∧
      (get_subgraph_call edge_elem_nodes g ns es).2.number_decision_points =
        g.number_decision_points ∧
      (get_subgraph_call edge_elem_nodes g ns es).2.number_branch_points =
        g.number_branch_points ∧
      (get_subgraph_call edge_elem_nodes g ns es).2.number_exit_points =
        g.number_exit_points) ∧
    (∃ H, get_subgraph_call edge_elem_nodes g ns es = (.ok H, g)) ∧
    (get_subgraph_call edge_elem_nodes g ns es).1 =
      get_subgraph edge_elem_nodes (XBytecodeGraph_init g.code) ns es := by
  refine ⟨⟨rfl, rfl, rfl, rfl, rfl, rfl, rfl⟩, ?_, ?_⟩
  · have hc : (!(pyTruthy es || pyTruthy ns)) = false := by
      cases hb1 : pyTruthy ns <;> cases hb2 : pyTruthy es <;>
        simp_all
    simp only [get_subgraph_call, get_subgraph, hc]
    simp only [Bool.false_eq_true, if_false]
    exact ⟨_, rfl⟩
  · show get_subgraph edge_elem_nodes g ns es =
      get_subgraph edge_elem_nodes (XBytecodeGraph_init g.code) ns es
    rfl

/-- C10 (witness): the frame property applied at a concrete graph and a
concrete node selection. -/
theorem C10_witness :
    ((get_subgraph_call edge_elem_nodes (XBytecodeGraph_init cStraight)
        (some [0]) none).2.nodes = (XBytecodeGraph_init cStraight).nodes ∧
      (get_subgraph_call edge_elem_nodes (XBytecodeGraph_init cStraight)
        (some [0]) none).2.edges = (XBytecodeGraph_init cStraight).edges ∧
      (get_subgraph_call edge_elem_nodes (XBytecodeGraph_init cStraight)
        (some [0]) none).2.instr_map =
        (XBytecodeGraph_init cStraight).instr_map ∧
      (get_subgraph_call edge_elem_nodes (XBytecodeGraph_init cStraight)
        (some [0]) none).2.number_entry_points =
        (XBytecodeGraph_init cStraight).number_entry_points ∧
      (get_subgraph_call edge_elem_nodes (XBytecodeGraph_init cStraight)
        (some [0]) none).2.number_decision_points =
        (XBytecodeGraph_init cStraight).number_decision_points ∧
      (get_subgraph_call edge_elem_nodes (XBytecodeGraph_init cStraight)
        (some [0]) none).2.number_branch_points =
        (XBytecodeGraph_init cStraight).number_branch_points ∧
      (get_subgraph_call edge_elem_nodes (XBytecodeGraph_init cStraight)
        (some [0]) none).2.number_exit_points =
        (XBytecodeGraph_init cStraight).number_exit_points) ∧
    (∃ H, get_subgraph_call edge_elem_nodes (XBytecodeGraph_init cStraight)
        (some [0]) none = (.ok H, XBytecodeGraph_init cStraight)) ∧
    (get_subgraph_call edge_elem_nodes (XBytecodeGraph_init cStraight)
        (some [0]) none).1 =
      get_subgraph edge_elem_nodes
        (XBytecodeGraph_init (XBytecodeGraph_init cStraight).code)
        (some [0]) none :=
  C10_frame (XBytecodeGraph_init cStraight) (some [0]) none (by decide)

/-- C1 (witness): the amended edge characterisation instantiated at the
backward-jump routine and the fall-through edge (2, 4). -/
theorem C1_witness :
    (2, 4) ∈ (XBytecodeGraph_init cBackJump).edges ↔
      fall_through_edge (instr_values cBackJump) (2, 4) ∨
      arg_match_edge (instr_values cBackJump) (2, 4) ∨
      exit_edge (instr_values cBackJump) (2, 4) :=
  C1_edges_amended cBackJump (2, 4)

/-- C3 (witness): Harrison complexity of the straight-line routine (no
decision points, one exit point) evaluates to 0 - 1 + 2 = 1. -/
theorem C3_witness : harrison_complexity cStraight = 1 :=
  (C3_harrison cStraight).trans (by decide)

/-- C8 (witness): the validation error at a concrete graph. -/
theorem C8_witness :
    get_subgraph edge_elem_nodes (XBytecodeGraph_init cStraight) none none =
      .error (.ccmException "Either a subset of nodes or edges must be provided") :=
  C8_validation_error (XBytecodeGraph_init cStraight)
